import Mathlib

/-!
Shallow embedding of the Realms elevation-generation core
(src/noisemap.rs, src/world.rs, src/util.rs).

Modelling conventions:
* `f64` values are modelled as exact rationals `ℚ` (ideal real arithmetic;
  division is total in `ℚ` with `x / 0 = 0`).
* The seeded PRNG (`StdRng::seed_from_u64` + `next_u32`, an external crate)
  is modelled as an abstract pure stream `rand : ℕ → ℕ → ℕ`, where
  `rand seed k` is the k-th `next_u32()` draw for that seed (§4.1 of the
  spec: a deterministic reproducible sequence).
* The continuous noise source (`Perlin::new().get([x, y])`, an external
  crate) is modelled as an abstract pure function `noise : ℚ → ℚ → ℚ`
  (§4.2 of the spec: a pure deterministic function of the coordinates).
* `f64::powf` (an intrinsic) is modelled as an abstract pure function
  `powf : ℚ → ℚ → ℚ`, `powf x a` standing for `x^a`.
* Rust `Vec<f64>` becomes `List ℚ`; indexing `v[i]`, which panics out of
  bounds, becomes `List.get?` (with `none` modelling the panic) where the
  access is fallible, and `List.getD _ 0` inside loops whose indices are
  in bounds by construction.
* The running `min`/`max` of `NoiseMap::new` start at `f64::INFINITY` /
  `f64::NEG_INFINITY` and are folded with `if value < min { min = value }`
  (resp. `>`); `ℚ` has no infinities, so `runningMin`/`runningMax` fold
  from the first element of the (in every theorem below nonempty) list of
  values, which is exactly the source's fold for a nonempty grid; for the
  empty grid they return the placeholder 0 (no theorem below inspects the
  min/max of an empty map).
-/

/-- Structure `NoiseParameters` from src/noisemap.rs: scale, octaves, persistence,
lacunarity. -/
structure NoiseParameters where
  scale : ℚ
  octaves : ℕ
  persistence : ℚ
  lacunarity : ℚ
  deriving DecidableEq

/-- Structure `FalloffParameters` from src/noisemap.rs: a, b, multiplier. -/
structure FalloffParameters where
  a : ℚ
  b : ℚ
  multiplier : ℚ
  deriving DecidableEq

/-- Structure `NoiseMap` from src/noisemap.rs: flat row-major value buffer plus the
recorded min/max and the dimensions. -/
structure NoiseMap where
  map : List ℚ
  min : ℚ
  max : ℚ
  width : ℕ
  height : ℕ
  deriving DecidableEq

/-- Function `inverse_lerp` from src/util.rs: `(value - min) / (max - min)`. -/
def inverse_lerp (mn mx value : ℚ) : ℚ :=
  (value - mn) / (mx - mn)

/-- Method `NoiseMap::normalize` from src/noisemap.rs:
`inverse_lerp(self.min, self.max, value)`. -/
def NoiseMap.normalize (m : NoiseMap) (value : ℚ) : ℚ :=
  inverse_lerp m.min m.max value

/-- Method `NoiseMap::get` from src/noisemap.rs: `self.map[y * self.width + x]`.
The single flat-index lookup panics exactly when the flat index is out of
range of the buffer; the panic is modelled by `none`. -/
def NoiseMap.get (m : NoiseMap) (x y : ℕ) : Option ℚ :=
  m.map.get? (y * m.width + x)

/-- Method `NoiseMap::get_normalized` from src/noisemap.rs:
`self.normalize(self.map[y * self.width + x])` (same lookup as `get`,
then `normalize`). -/
def NoiseMap.get_normalized (m : NoiseMap) (x y : ℕ) : Option ℚ :=
  (m.map.get? (y * m.width + x)).map m.normalize

/-- The per-octave offsets of `NoiseMap::new`:
`(0..octaves).map(|_| (random.next_u32(), random.next_u32()))`, drawing
two consecutive values from the seeded stream per octave, in octave
order. -/
def octaveOffsets (rand : ℕ → ℕ → ℕ) (seed : ℕ) (octaves : ℕ) :
    List (ℕ × ℕ) :=
  (List.range octaves).map fun i => (rand seed (2 * i), rand seed (2 * i + 1))

/-- One iteration of the octave loop of `NoiseMap::new`, acting on the
state `(amplitude, frequency, value)`:
`sample_x = frequency * (x - width/2 + offset_x) / (scale * width)`,
`sample_y = frequency * (y - height/2 + offset_y) / (scale * height)`,
`value += amplitude * noise(sample_x, sample_y)`,
`amplitude *= persistence`, `frequency *= lacunarity`. -/
def cellStep (noise : ℚ → ℚ → ℚ) (p : NoiseParameters)
    (width height x y : ℕ) (s : ℚ × ℚ × ℚ) (off : ℕ × ℕ) : ℚ × ℚ × ℚ :=
  let sample_x := s.2.1 * ((x : ℚ) - (width : ℚ) / 2 + (off.1 : ℚ)) /
    (p.scale * (width : ℚ))
  let sample_y := s.2.1 * ((y : ℚ) - (height : ℚ) / 2 + (off.2 : ℚ)) /
    (p.scale * (height : ℚ))
  (s.1 * p.persistence, s.2.1 * p.lacunarity,
    s.2.2 + s.1 * noise sample_x sample_y)

/-- The inner octave loop of `NoiseMap::new` for one grid cell, started
from `amplitude = 1.0`, `frequency = 1.0`, `value = 0.0`; the result is
the accumulated `value`. -/
def cellValue (noise : ℚ → ℚ → ℚ) (offsets : List (ℕ × ℕ))
    (p : NoiseParameters) (width height x y : ℕ) : ℚ :=
  (offsets.foldl (cellStep noise p width height x y) (1, 1, 0)).2.2

/-- The doubly nested `for y { for x { ... map.push(value) } }` loop:
row-major list of the per-cell values. -/
def gridList (width height : ℕ) (f : ℕ → ℕ → ℚ) : List ℚ :=
  (List.range height).flatMap fun y => (List.range width).map fun x => f x y

/-- The running minimum of `NoiseMap::new`: starts at `f64::INFINITY`,
then `if value < min { min = value }` per cell. For a nonempty list this
equals folding from the first element; 0 is the empty placeholder (ℚ has
no infinities; see the module comment). -/
def runningMin : List ℚ → ℚ
  | [] => 0
  | v :: rest => rest.foldl (fun m x => if x < m then x else m) v

/-- The running maximum of `NoiseMap::new`: starts at
`f64::NEG_INFINITY`, then `if value > max { max = value }` per cell. -/
def runningMax : List ℚ → ℚ
  | [] => 0
  | v :: rest => rest.foldl (fun m x => if x > m then x else m) v

/-- Constructor `NoiseMap::new` from src/noisemap.rs: draw the octave offsets from the
seeded stream, fill the row-major buffer with the fractal sum per cell,
and record the running min/max of the raw values. -/
def NoiseMap.new (rand : ℕ → ℕ → ℕ) (noise : ℚ → ℚ → ℚ) (seed : ℕ)
    (width height : ℕ) (p : NoiseParameters) : NoiseMap :=
  let offsets := octaveOffsets rand seed p.octaves
  let values := gridList width height fun x y =>
    cellValue noise offsets p width height x y
  { map := values
    min := runningMin values
    max := runningMax values
    width := width
    height := height }

/-- Function `NoiseMap::falloff` from src/noisemap.rs:
`value.powf(a) / (value.powf(a) + (b - b * value).powf(a))`. -/
def NoiseMap.falloff (powf : ℚ → ℚ → ℚ) (value a b : ℚ) : ℚ :=
  powf value a / (powf value a + powf (b - b * value) a)

/-- The cell coordinates `(x, y)` in the order the falloff loop of
`NoiseMap::new_with_falloff` visits them (`for y { for x { ... } }`). -/
def gridCells (width height : ℕ) : List (ℕ × ℕ) :=
  (List.range height).flatMap fun y => (List.range width).map fun x => (x, y)

/-- The amount `NoiseMap::new_with_falloff` subtracts at cell `(x, y)`:
`(map.max - map.min) * falloff.multiplier * falloff_value` with
`falloff_value = falloff(max(|x/width*2 - 1|, |y/height*2 - 1|), a, b)`
(the struct's `max`/`min` fields are never written by the loop, so they
are the raw map's extremes throughout). -/
def falloffDelta (powf : ℚ → ℚ → ℚ) (fo : FalloffParameters)
    (range : ℚ) (width height x y : ℕ) : ℚ :=
  let i := |(x : ℚ) / (width : ℚ) * 2 - 1|
  let j := |(y : ℚ) / (height : ℚ) * 2 - 1|
  let value := Max.max i j
  range * fo.multiplier * NoiseMap.falloff powf value fo.a fo.b

/-- Constructor `NoiseMap::new_with_falloff` from src/noisemap.rs: build the raw map,
then for each cell (in row-major loop order) do
`map.map[y*width+x] -= (map.max - map.min) * multiplier * falloff_value`.
The in-place `-=` at flat index `y*width+x` is modelled by
`List.set`/`List.getD` at that index. -/
def NoiseMap.new_with_falloff (rand : ℕ → ℕ → ℕ) (noise : ℚ → ℚ → ℚ)
    (powf : ℚ → ℚ → ℚ) (seed : ℕ) (width height : ℕ)
    (p : NoiseParameters) (fo : FalloffParameters) : NoiseMap :=
  let m := NoiseMap.new rand noise seed width height p
  { m with
    map := (gridCells width height).foldl
      (fun acc c =>
        let idx := c.2 * width + c.1
        acc.set idx
          (acc.getD idx 0 - falloffDelta powf fo (m.max - m.min)
            width height c.1 c.2))
      m.map }

/-- Structure `WorldParameters` from src/world.rs. -/
structure WorldParameters where
  width : ℕ
  height : ℕ
  elevation_parameters : NoiseParameters
  falloff : Option FalloffParameters
  sea_level : ℚ
  deriving DecidableEq

/-- Structure `World` from src/world.rs. -/
structure World where
  seed : ℕ
  parameters : WorldParameters
  elevation : NoiseMap
  deriving DecidableEq

/-- Method `World::generate_elevation` from src/world.rs: dispatch on the
optional falloff parameters. -/
def World.generate_elevation (rand : ℕ → ℕ → ℕ) (noise : ℚ → ℚ → ℚ)
    (powf : ℚ → ℚ → ℚ) (seed : ℕ) (ps : WorldParameters) : NoiseMap :=
  match ps.falloff with
  | some fo => NoiseMap.new_with_falloff rand noise powf seed ps.width
      ps.height ps.elevation_parameters fo
  | none => NoiseMap.new rand noise seed ps.width ps.height
      ps.elevation_parameters

/-- Constructor `World::new` from src/world.rs: unconditionally builds the elevation
map from the given seed and parameters (the source performs no
validation and has no error path). -/
def World.new (rand : ℕ → ℕ → ℕ) (noise : ℚ → ℚ → ℚ)
    (powf : ℚ → ℚ → ℚ) (seed : ℕ) (ps : WorldParameters) : World :=
  { seed := seed
    parameters := ps
    elevation := World.generate_elevation rand noise powf seed ps }

/-- The per-cell value exactly as the specification words it (§4.3 of the
spec, quoted by claim C1): the sum over octaves `i` of
`amplitude_i * noise(sample_x_i, sample_y_i)` with
`amplitude_i = persistence^i`, `frequency_i = lacunarity^i`,
`sample_x_i = frequency_i * (x - width/2 + offset_x_i) / (scale * width)`
and `sample_y_i = frequency_i * (y - height/2 + offset_y_i) /
(scale * height)`, the i-th offsets being the i-th pair drawn from the
seeded stream. -/
def specCellValue (rand : ℕ → ℕ → ℕ) (noise : ℚ → ℚ → ℚ) (seed : ℕ)
    (p : NoiseParameters) (width height x y : ℕ) : ℚ :=
  ∑ i ∈ Finset.range p.octaves,
    p.persistence ^ i * noise
      (p.lacunarity ^ i * ((x : ℚ) - (width : ℚ) / 2 +
        (rand seed (2 * i) : ℚ)) / (p.scale * (width : ℚ)))
      (p.lacunarity ^ i * ((y : ℚ) - (height : ℚ) / 2 +
        (rand seed (2 * i + 1) : ℚ)) / (p.scale * (height : ℚ)))

/-! ### Helper lemmas about the grid layout -/

lemma gridList_succ (width h : ℕ) (f : ℕ → ℕ → ℚ) :
    gridList width (h + 1) f =
      gridList width h f ++ (List.range width).map (fun x => f x h) := by
  unfold gridList
  rw [List.range_succ, List.flatMap_append]
  simp

lemma gridList_length (width h : ℕ) (f : ℕ → ℕ → ℚ) :
    (gridList width h f).length = h * width := by
  induction h with
  | zero => simp [gridList]
  | succ n ih =>
      rw [gridList_succ, List.length_append, ih, List.length_map,
        List.length_range, Nat.succ_mul]

lemma gridList_get? (width h : ℕ) (f : ℕ → ℕ → ℚ) {x y : ℕ}
    (hx : x < width) (hy : y < h) :
    (gridList width h f).get? (y * width + x) = some (f x y) := by
  induction h with
  | zero => omega
  | succ n ih =>
      rw [gridList_succ]
      rcases Nat.lt_succ_iff_lt_or_eq.mp hy with hlt | heq
      · rw [List.get?_append, ih hlt]
        rw [gridList_length]
        calc y * width + x < y * width + width := by omega
          _ = (y + 1) * width := (Nat.succ_mul y width).symm
          _ ≤ n * width := Nat.mul_le_mul_right width hlt
      · subst heq
        rw [List.get?_append_right (by rw [gridList_length]; omega)]
        rw [gridList_length, Nat.add_sub_cancel_left, List.get?_map,
          List.get?_range hx]
        rfl

lemma mem_gridList {width h : ℕ} {f : ℕ → ℕ → ℚ} {v : ℚ} :
    v ∈ gridList width h f ↔ ∃ y < h, ∃ x < width, v = f x y := by
  simp only [gridList, List.mem_flatMap, List.mem_map, List.mem_range]
  constructor
  · rintro ⟨y, hy, x, hx, rfl⟩
    exact ⟨y, hy, x, hx, rfl⟩
  · rintro ⟨y, hy, x, hx, rfl⟩
    exact ⟨y, hy, x, hx, rfl⟩

lemma gridCells_succ (width h : ℕ) :
    gridCells width (h + 1) =
      gridCells width h ++ (List.range width).map (fun x => (x, h)) := by
  unfold gridCells
  rw [List.range_succ, List.flatMap_append]
  simp

lemma mem_gridCells {width h x y : ℕ} :
    (x, y) ∈ gridCells width h ↔ x < width ∧ y < h := by
  simp only [gridCells, List.mem_flatMap, List.mem_map, List.mem_range,
    Prod.mk.injEq]
  constructor
  · rintro ⟨b, hb, a, ha, rfl, rfl⟩
    exact ⟨ha, hb⟩
  · rintro ⟨hx, hy⟩
    exact ⟨y, hy, x, hx, rfl, rfl⟩

lemma gridCells_indices (width h : ℕ) :
    (gridCells width h).map (fun c => c.2 * width + c.1) =
      List.range (h * width) := by
  induction h with
  | zero => simp [gridCells]
  | succ n ih =>
      rw [gridCells_succ, List.map_append, ih, List.map_map,
        Nat.succ_mul, List.range_add]
      congr 1

/-! ### Helper lemmas about the running min/max folds -/

lemma foldlMin_le (l : List ℚ) : ∀ a : ℚ,
    l.foldl (fun m x => if x < m then x else m) a ≤ a := by
  induction l with
  | nil => intro a; simp
  | cons x r ih =>
      intro a
      refine le_trans (ih _) ?_
      by_cases h : x < a
      · simp [h, le_of_lt h]
      · simp [h]

lemma foldlMin_le_mem (l : List ℚ) : ∀ (a v : ℚ), v ∈ l →
    l.foldl (fun m x => if x < m then x else m) a ≤ v := by
  induction l with
  | nil => intro a v hv; simp at hv
  | cons x r ih =>
      intro a v hv
      rcases List.mem_cons.mp hv with rfl | hv
      · refine le_trans (foldlMin_le r _) ?_
        by_cases h : v < a
        · simp [h]
        · simpa [h] using le_of_not_lt h
      · exact ih _ v hv

lemma le_foldlMax (l : List ℚ) : ∀ a : ℚ,
    a ≤ l.foldl (fun m x => if x > m then x else m) a := by
  induction l with
  | nil => intro a; simp
  | cons x r ih =>
      intro a
      refine le_trans ?_ (ih _)
      by_cases h : x > a
      · simp [h, le_of_lt h]
      · simp [h]

lemma mem_le_foldlMax (l : List ℚ) : ∀ (a v : ℚ), v ∈ l →
    v ≤ l.foldl (fun m x => if x > m then x else m) a := by
  induction l with
  | nil => intro a v hv; simp at hv
  | cons x r ih =>
      intro a v hv
      rcases List.mem_cons.mp hv with rfl | hv
      · refine le_trans ?_ (le_foldlMax r _)
        by_cases h : v > a
        · simp [h]
        · simpa [h] using le_of_not_lt h
      · exact ih _ v hv

lemma runningMin_le {l : List ℚ} {v : ℚ} (hv : v ∈ l) : runningMin l ≤ v := by
  cases l with
  | nil => simp at hv
  | cons a r =>
      rcases List.mem_cons.mp hv with rfl | hv
      · exact foldlMin_le r v
      · exact foldlMin_le_mem r a v hv

lemma le_runningMax {l : List ℚ} {v : ℚ} (hv : v ∈ l) : v ≤ runningMax l := by
  cases l with
  | nil => simp at hv
  | cons a r =>
      rcases List.mem_cons.mp hv with rfl | hv
      · exact le_foldlMax r v
      · exact mem_le_foldlMax r a v hv

/-! ### Helper lemmas about the falloff in-place update loop -/

/-- Helper (proof infrastructure, not source code): the falloff loop seen
as a fold of read-subtract-set operations over a list of
(flat index, subtracted amount) pairs. -/
def subAtFold (ops : List (ℕ × ℚ)) (l : List ℚ) : List ℚ :=
  ops.foldl (fun acc op => acc.set op.1 (acc.getD op.1 0 - op.2)) l

lemma subAtFold_nil (l : List ℚ) : subAtFold [] l = l := rfl

lemma subAtFold_cons (op : ℕ × ℚ) (ops : List (ℕ × ℚ)) (l : List ℚ) :
    subAtFold (op :: ops) l =
      subAtFold ops (l.set op.1 (l.getD op.1 0 - op.2)) := rfl

lemma subAtFold_length (ops : List (ℕ × ℚ)) : ∀ l : List ℚ,
    (subAtFold ops l).length = l.length := by
  induction ops with
  | nil => intro l; rfl
  | cons op rest ih =>
      intro l
      rw [subAtFold_cons, ih, List.length_set]

lemma subAtFold_get?_notMem (ops : List (ℕ × ℚ)) : ∀ (l : List ℚ) (j : ℕ),
    j ∉ ops.map Prod.fst → (subAtFold ops l).get? j = l.get? j := by
  induction ops with
  | nil => intro l j _; rfl
  | cons op rest ih =>
      intro l j hj
      rw [List.map_cons, List.mem_cons] at hj
      push_neg at hj
      rw [subAtFold_cons, ih _ _ hj.2, List.get?_set_ne _ _ (Ne.symm hj.1)]

lemma subAtFold_get?_mem (ops : List (ℕ × ℚ)) : ∀ (l : List ℚ) (j : ℕ)
    (d : ℚ), (j, d) ∈ ops → (ops.map Prod.fst).Nodup → j < l.length →
    (subAtFold ops l).get? j = some (l.getD j 0 - d) := by
  induction ops with
  | nil => intro l j d h; simp at h
  | cons op rest ih =>
      intro l j d hmem hnd hj
      rw [List.map_cons, List.nodup_cons] at hnd
      rcases List.mem_cons.mp hmem with heq | hmem
      · subst heq
        rw [subAtFold_cons, subAtFold_get?_notMem rest _ _ hnd.1]
        have hset := List.get?_set_eq (l.getD j 0 - d) j l
        rcases List.get?_eq_some.mpr ⟨hj, rfl⟩ with hsome
        rw [hset, hsome]
        rfl
      · have hne : op.1 ≠ j := by
          intro h
          exact hnd.1 (h ▸ List.mem_map.mpr ⟨(j, d), hmem, rfl⟩)
        rw [subAtFold_cons]
        rw [ih _ _ _ hmem hnd.2 (by rw [List.length_set]; exact hj),
          List.getD_eq_get?, List.getD_eq_get?, List.get?_set_ne _ _ hne,
          ← List.getD_eq_get?]

lemma foldlMin_mem (l : List ℚ) : ∀ a : ℚ,
    l.foldl (fun m x => if x < m then x else m) a ∈ a :: l := by
  induction l with
  | nil => intro a; simp
  | cons x r ih =>
      intro a
      have hstep : (x :: r).foldl (fun m x => if x < m then x else m) a =
          r.foldl (fun m x => if x < m then x else m)
            (if x < a then x else a) := rfl
      rw [hstep]
      rcases List.mem_cons.mp (ih (if x < a then x else a)) with h | h
      · rw [h]
        by_cases hxa : x < a
        · simp [hxa]
        · simp [hxa]
      · exact List.mem_cons.mpr (Or.inr (List.mem_cons.mpr (Or.inr h)))

lemma foldlMax_mem (l : List ℚ) : ∀ a : ℚ,
    l.foldl (fun m x => if x > m then x else m) a ∈ a :: l := by
  induction l with
  | nil => intro a; simp
  | cons x r ih =>
      intro a
      have hstep : (x :: r).foldl (fun m x => if x > m then x else m) a =
          r.foldl (fun m x => if x > m then x else m)
            (if x > a then x else a) := rfl
      rw [hstep]
      rcases List.mem_cons.mp (ih (if x > a then x else a)) with h | h
      · rw [h]
        by_cases hxa : x > a
        · simp [hxa]
        · simp [hxa]
      · exact List.mem_cons.mpr (Or.inr (List.mem_cons.mpr (Or.inr h)))

lemma runningMin_mem {l : List ℚ} (hl : l ≠ []) : runningMin l ∈ l := by
  cases l with
  | nil => exact absurd rfl hl
  | cons a r => exact foldlMin_mem r a

lemma runningMax_mem {l : List ℚ} (hl : l ≠ []) : runningMax l ∈ l := by
  cases l with
  | nil => exact absurd rfl hl
  | cons a r => exact foldlMax_mem r a

/-! ### Characterizations of the two constructors -/

lemma idx_lt_of_lt {width height x y : ℕ} (hx : x < width)
    (hy : y < height) : y * width + x < height * width :=
  calc y * width + x < y * width + width := by omega
    _ = (y + 1) * width := (Nat.succ_mul y width).symm
    _ ≤ height * width := Nat.mul_le_mul_right width hy

lemma new_map_eq (rand : ℕ → ℕ → ℕ) (noise : ℚ → ℚ → ℚ) (seed : ℕ)
    (width height : ℕ) (p : NoiseParameters) :
    (NoiseMap.new rand noise seed width height p).map =
      gridList width height fun x y =>
        cellValue noise (octaveOffsets rand seed p.octaves) p
          width height x y := rfl

lemma new_map_length (rand : ℕ → ℕ → ℕ) (noise : ℚ → ℚ → ℚ) (seed : ℕ)
    (width height : ℕ) (p : NoiseParameters) :
    (NoiseMap.new rand noise seed width height p).map.length =
      height * width := by
  rw [new_map_eq, gridList_length]

lemma new_map_get? (rand : ℕ → ℕ → ℕ) (noise : ℚ → ℚ → ℚ) (seed : ℕ)
    {width height x y : ℕ} (p : NoiseParameters) (hx : x < width)
    (hy : y < height) :
    (NoiseMap.new rand noise seed width height p).map.get?
        (y * width + x) =
      some (cellValue noise (octaveOffsets rand seed p.octaves) p
        width height x y) := by
  rw [new_map_eq, gridList_get? _ _ _ hx hy]

lemma octaveFold_closed (noise : ℚ → ℚ → ℚ) (rand : ℕ → ℕ → ℕ)
    (seed : ℕ) (p : NoiseParameters) (width height x y : ℕ) (n : ℕ) :
    (octaveOffsets rand seed n).foldl
        (cellStep noise p width height x y) (1, 1, 0) =
      (p.persistence ^ n, p.lacunarity ^ n,
        ∑ i ∈ Finset.range n, p.persistence ^ i * noise
          (p.lacunarity ^ i * ((x : ℚ) - (width : ℚ) / 2 +
            (rand seed (2 * i) : ℚ)) / (p.scale * (width : ℚ)))
          (p.lacunarity ^ i * ((y : ℚ) - (height : ℚ) / 2 +
            (rand seed (2 * i + 1) : ℚ)) / (p.scale * (height : ℚ)))) := by
  induction n with
  | zero => simp [octaveOffsets]
  | succ k ih =>
      have hsplit : octaveOffsets rand seed (k + 1) =
          octaveOffsets rand seed k ++
            [(rand seed (2 * k), rand seed (2 * k + 1))] := by
        unfold octaveOffsets
        rw [List.range_succ, List.map_append]
        rfl
      rw [hsplit, List.foldl_append, ih]
      simp only [List.foldl_cons, List.foldl_nil, cellStep]
      rw [Finset.sum_range_succ, pow_succ, pow_succ]

lemma cellValue_eq_specCellValue (rand : ℕ → ℕ → ℕ)
    (noise : ℚ → ℚ → ℚ) (seed : ℕ) (p : NoiseParameters)
    (width height x y : ℕ) :
    cellValue noise (octaveOffsets rand seed p.octaves) p width height x y =
      specCellValue rand noise seed p width height x y := by
  unfold cellValue specCellValue
  rw [octaveFold_closed]

lemma new_with_falloff_map_eq (rand : ℕ → ℕ → ℕ) (noise : ℚ → ℚ → ℚ)
    (powf : ℚ → ℚ → ℚ) (seed : ℕ) (width height : ℕ)
    (p : NoiseParameters) (fo : FalloffParameters) :
    (NoiseMap.new_with_falloff rand noise powf seed width height p fo).map =
      subAtFold ((gridCells width height).map fun c =>
          (c.2 * width + c.1,
            falloffDelta powf fo
              ((NoiseMap.new rand noise seed width height p).max -
                (NoiseMap.new rand noise seed width height p).min)
              width height c.1 c.2))
        (NoiseMap.new rand noise seed width height p).map := by
  unfold NoiseMap.new_with_falloff subAtFold
  rw [List.foldl_map]

lemma new_with_falloff_nodup_indices (width height : ℕ)
    (g : ℕ × ℕ → ℚ) :
    (((gridCells width height).map fun c =>
        (c.2 * width + c.1, g c)).map Prod.fst).Nodup := by
  rw [List.map_map]
  have : (Prod.fst ∘ fun c : ℕ × ℕ => (c.2 * width + c.1, g c)) =
      fun c : ℕ × ℕ => c.2 * width + c.1 := rfl
  rw [this, gridCells_indices]
  exact List.nodup_range _

lemma new_with_falloff_map_get? (rand : ℕ → ℕ → ℕ) (noise : ℚ → ℚ → ℚ)
    (powf : ℚ → ℚ → ℚ) (seed : ℕ) {width height x y : ℕ}
    (p : NoiseParameters) (fo : FalloffParameters) (hx : x < width)
    (hy : y < height) :
    (NoiseMap.new_with_falloff rand noise powf seed width height
        p fo).map.get? (y * width + x) =
      some ((NoiseMap.new rand noise seed width height p).map.getD
          (y * width + x) 0 -
        falloffDelta powf fo
          ((NoiseMap.new rand noise seed width height p).max -
            (NoiseMap.new rand noise seed width height p).min)
          width height x y) := by
  rw [new_with_falloff_map_eq]
  refine subAtFold_get?_mem _ _ _ _ ?_ (new_with_falloff_nodup_indices _ _ _)
    ?_
  · exact List.mem_map.mpr ⟨(x, y), mem_gridCells.mpr ⟨hx, hy⟩, rfl⟩
  · rw [new_map_length]
    exact idx_lt_of_lt hx hy

lemma new_min_eq (rand : ℕ → ℕ → ℕ) (noise : ℚ → ℚ → ℚ) (seed : ℕ)
    (width height : ℕ) (p : NoiseParameters) :
    (NoiseMap.new rand noise seed width height p).min =
      runningMin (NoiseMap.new rand noise seed width height p).map := rfl

lemma new_max_eq (rand : ℕ → ℕ → ℕ) (noise : ℚ → ℚ → ℚ) (seed : ℕ)
    (width height : ℕ) (p : NoiseParameters) :
    (NoiseMap.new rand noise seed width height p).max =
      runningMax (NoiseMap.new rand noise seed width height p).map := rfl

/-! ### Concrete instantiations of the abstract primitives, used by the
witness and counterexample theorems -/

/-- Concrete PRNG stream for witnesses: every `next_u32` draw is 0 (a
legitimate value of the abstract stream of §4.1). -/
def rand0 : ℕ → ℕ → ℕ := fun _ _ => 0

/-- Concrete noise source for witnesses: -1 for negative first
coordinates, 0 otherwise — values inside the nominal [-1, 1] range of
§4.2 (and 0 at the origin, as gradient noise is). -/
def noise0 : ℚ → ℚ → ℚ := fun sx _ => if sx < 0 then -1 else 0

/-- Concrete power function for witnesses: the exponent used there is
always 1, and x^1 = x. -/
def powf0 : ℚ → ℚ → ℚ := fun x _ => x

/-- Concrete noise parameters with one octave. -/
def params1 : NoiseParameters :=
  { scale := 1, octaves := 1, persistence := 1/2, lacunarity := 2 }

/-- Concrete noise parameters with zero octaves. -/
def params0 : NoiseParameters :=
  { scale := 1, octaves := 0, persistence := 1/2, lacunarity := 2 }

/-- Concrete falloff parameters a = b = multiplier = 1. -/
def fall1 : FalloffParameters := { a := 1, b := 1, multiplier := 1 }

/-- Concrete world parameters that are invalid per the spec (§7): zero
width and height combined with a falloff. -/
def degenerateWorldParams : WorldParameters :=
  { width := 0, height := 0, elevation_parameters := params1,
    falloff := some fall1, sea_level := 0 }

/-! ### Claim theorems -/

/-- C1: for every seed, positive width and height (positivity follows
from the in-range cell coordinates), and NoiseParameters, the fractal
builder stores at row-major index y*width+x the sum over the octaves, in
order and using the i-th precomputed offset pair, of
`amplitude * noise(sample_x, sample_y)` where amplitude starts at 1 and
is multiplied by persistence after each octave, frequency starts at 1
and is multiplied by lacunarity after each octave,
`sample_x = frequency * (x - width/2 + offset_x) / (scale * width)` and
`sample_y = frequency * (y - height/2 + offset_y) / (scale * height)` —
the closed form spelled out by `specCellValue`. -/
theorem builder_cell_formula (rand : ℕ → ℕ → ℕ) (noise : ℚ → ℚ → ℚ)
    (seed : ℕ) (width height x y : ℕ) (p : NoiseParameters)
    (hx : x < width) (hy : y < height) :
    (NoiseMap.new rand noise seed width height p).map.get?
        (y * width + x) =
      some (specCellValue rand noise seed p width height x y) := by
  rw [new_map_get? rand noise seed p hx hy, cellValue_eq_specCellValue]

/-- Witness for C1 at a concrete instantiation (2×1 grid, one octave). -/
theorem builder_cell_formula_witness :
    (0 < 2 ∧ 0 < 1) ∧
      (NoiseMap.new rand0 noise0 0 2 1 params1).map.get? (0 * 2 + 0) =
        some (specCellValue rand0 noise0 0 params1 2 1 0 0) :=
  ⟨⟨by decide, by decide⟩,
    builder_cell_formula rand0 noise0 0 2 1 0 0 params1 (by decide)
      (by decide)⟩

/-- C2: with the PRNG and the noise source modelled as the pure
deterministic functions the spec declares them to be (§4.1, §4.2), two
independent calls of the field builder on the same
(seed, width, height, params) produce identical flat value sequences and
identical min and max. -/
theorem builder_deterministic (rand : ℕ → ℕ → ℕ) (noise : ℚ → ℚ → ℚ)
    (seed : ℕ) (width height : ℕ) (p : NoiseParameters)
    (m₁ m₂ : NoiseMap)
    (h₁ : m₁ = NoiseMap.new rand noise seed width height p)
    (h₂ : m₂ = NoiseMap.new rand noise seed width height p) :
    m₁.map = m₂.map ∧ m₁.min = m₂.min ∧ m₁.max = m₂.max := by
  subst h₁
  subst h₂
  exact ⟨rfl, rfl, rfl⟩

/-- Witness for C2 at a concrete instantiation. -/
theorem builder_deterministic_witness :
    (NoiseMap.new rand0 noise0 0 2 1 params1).map =
        (NoiseMap.new rand0 noise0 0 2 1 params1).map ∧
      (NoiseMap.new rand0 noise0 0 2 1 params1).min =
        (NoiseMap.new rand0 noise0 0 2 1 params1).min ∧
      (NoiseMap.new rand0 noise0 0 2 1 params1).max =
        (NoiseMap.new rand0 noise0 0 2 1 params1).max :=
  builder_deterministic rand0 noise0 0 2 1 params1 _ _ rfl rfl

/-- C3: every cell value of a raw field produced by the builder (before
any falloff) lies between the recorded min and max. -/
theorem raw_values_between_min_max (rand : ℕ → ℕ → ℕ)
    (noise : ℚ → ℚ → ℚ) (seed : ℕ) (width height : ℕ)
    (p : NoiseParameters) :
    ∀ v ∈ (NoiseMap.new rand noise seed width height p).map,
      (NoiseMap.new rand noise seed width height p).min ≤ v ∧
        v ≤ (NoiseMap.new rand noise seed width height p).max := by
  intro v hv
  rw [new_min_eq, new_max_eq]
  exact ⟨runningMin_le hv, le_runningMax hv⟩

/-- Witness for C3 at a concrete instantiation: the value -1 is a cell
of the 2×1 field and lies between its min and max. -/
theorem raw_values_between_min_max_witness :
    (-1 : ℚ) ∈ (NoiseMap.new rand0 noise0 0 2 1 params1).map ∧
      ((NoiseMap.new rand0 noise0 0 2 1 params1).min ≤ -1 ∧
        (-1 : ℚ) ≤ (NoiseMap.new rand0 noise0 0 2 1 params1).max) :=
  ⟨by
      norm_num [NoiseMap.new, gridList, octaveOffsets, cellValue, cellStep,
        noise0, rand0, params1, List.range_succ],
    raw_values_between_min_max rand0 noise0 0 2 1 params1 (-1)
      (by
        norm_num [NoiseMap.new, gridList, octaveOffsets, cellValue,
          cellStep, noise0, rand0, params1, List.range_succ])⟩

/-- C4: when falloff is applied, every cell (x, y) has exactly
`(original_max - original_min) * multiplier * falloff(d)` subtracted
from its raw value v, where `d = max(|x/width*2 - 1|, |y/height*2 - 1|)`
and `falloff(d) = d^a / (d^a + (b - b*d)^a)` (with the abstract `powf`
standing for real exponentiation). -/
theorem falloff_subtracts_exact_amount (rand : ℕ → ℕ → ℕ)
    (noise : ℚ → ℚ → ℚ) (powf : ℚ → ℚ → ℚ) (seed : ℕ)
    (width height x y : ℕ) (p : NoiseParameters) (fo : FalloffParameters)
    (v : ℚ) (hx : x < width) (hy : y < height)
    (hv : (NoiseMap.new rand noise seed width height p).map.get?
      (y * width + x) = some v) :
    (NoiseMap.new_with_falloff rand noise powf seed width height
        p fo).map.get? (y * width + x) =
      some (v -
        ((NoiseMap.new rand noise seed width height p).max -
            (NoiseMap.new rand noise seed width height p).min) *
          fo.multiplier *
          NoiseMap.falloff powf
            (Max.max |(x : ℚ) / (width : ℚ) * 2 - 1|
              |(y : ℚ) / (height : ℚ) * 2 - 1|) fo.a fo.b) := by
  rw [new_with_falloff_map_get? rand noise powf seed p fo hx hy,
    List.getD_eq_get?, hv]
  rfl

/-- Witness for C4 at a concrete instantiation (2×1 grid, one octave,
a = b = multiplier = 1). -/
theorem falloff_subtracts_exact_amount_witness :
    (0 < 2 ∧ 0 < 1) ∧
      (NoiseMap.new rand0 noise0 0 2 1 params1).map.get? (0 * 2 + 0) =
        some (-1) ∧
      (NoiseMap.new_with_falloff rand0 noise0 powf0 0 2 1 params1
          fall1).map.get? (0 * 2 + 0) =
        some ((-1) -
          ((NoiseMap.new rand0 noise0 0 2 1 params1).max -
              (NoiseMap.new rand0 noise0 0 2 1 params1).min) *
            fall1.multiplier *
            NoiseMap.falloff powf0
              (Max.max |(0 : ℚ) / (2 : ℚ) * 2 - 1|
                |(0 : ℚ) / (1 : ℚ) * 2 - 1|) fall1.a fall1.b) :=
  ⟨⟨by decide, by decide⟩,
    by
      norm_num [NoiseMap.new, gridList, octaveOffsets, cellValue, cellStep,
        noise0, rand0, params1, List.range_succ],
    falloff_subtracts_exact_amount rand0 noise0 powf0 0 2 1 0 0 params1
      fall1 (-1) (by decide) (by decide)
      (by
        norm_num [NoiseMap.new, gridList, octaveOffsets, cellValue,
          cellStep, noise0, rand0, params1, List.range_succ])⟩

/-- C5: applying the falloff transform changes only the per-cell values:
the min, max, width and height recorded in the map returned by
`new_with_falloff` are exactly those of the raw map built by the plain
builder on the same inputs — they are not recomputed after the
mutation. -/
theorem falloff_changes_only_values (rand : ℕ → ℕ → ℕ)
    (noise : ℚ → ℚ → ℚ) (powf : ℚ → ℚ → ℚ) (seed : ℕ)
    (width height : ℕ) (p : NoiseParameters) (fo : FalloffParameters) :
    (NoiseMap.new_with_falloff rand noise powf seed width height
        p fo).min = (NoiseMap.new rand noise seed width height p).min ∧
      (NoiseMap.new_with_falloff rand noise powf seed width height
        p fo).max = (NoiseMap.new rand noise seed width height p).max ∧
      (NoiseMap.new_with_falloff rand noise powf seed width height
        p fo).width = (NoiseMap.new rand noise seed width height p).width ∧
      (NoiseMap.new_with_falloff rand noise powf seed width height
        p fo).height =
        (NoiseMap.new rand noise seed width height p).height :=
  ⟨rfl, rfl, rfl, rfl⟩

/-- C6: for every map whose recorded max exceeds its recorded min,
normalizing the min gives exactly 0 and normalizing the max gives
exactly 1. -/
theorem normalize_unit_endpoints (m : NoiseMap) (h : m.min < m.max) :
    m.normalize m.min = 0 ∧ m.normalize m.max = 1 := by
  constructor
  · simp [NoiseMap.normalize, inverse_lerp]
  · have hne : m.max - m.min ≠ 0 := sub_ne_zero_of_ne (ne_of_gt h)
    simp [NoiseMap.normalize, inverse_lerp, div_self hne]

/-- Witness for C6 on the concrete 2×1 field (min = -1 < max = 0). -/
theorem normalize_unit_endpoints_witness :
    (NoiseMap.new rand0 noise0 0 2 1 params1).min <
        (NoiseMap.new rand0 noise0 0 2 1 params1).max ∧
      ((NoiseMap.new rand0 noise0 0 2 1 params1).normalize
          (NoiseMap.new rand0 noise0 0 2 1 params1).min = 0 ∧
        (NoiseMap.new rand0 noise0 0 2 1 params1).normalize
          (NoiseMap.new rand0 noise0 0 2 1 params1).max = 1) :=
  ⟨by
      norm_num [NoiseMap.new, gridList, octaveOffsets, cellValue, cellStep,
        noise0, rand0, params1, List.range_succ, runningMin, runningMax],
    normalize_unit_endpoints _
      (by
        norm_num [NoiseMap.new, gridList, octaveOffsets, cellValue,
          cellStep, noise0, rand0, params1, List.range_succ, runningMin,
          runningMax])⟩

/-- C7 counterexample: on a map built with falloff, `get_normalized` can
return a value outside [0, 1]. On the concrete 2×1 one-octave field
(raw values [-1, 0], recorded min = -1, max = 0, a = b = multiplier = 1)
the falloff pass lowers cell (0,0) to -2, which normalizes to -1 < 0:
falloff only ever decreases values while min/max stay frozen, so
normalized values of falloff maps can drop below 0. -/
theorem get_normalized_outside_unit_range :
    (NoiseMap.new_with_falloff rand0 noise0 powf0 0 2 1 params1
        fall1).get_normalized 0 0 = some (-1) ∧ (-1 : ℚ) < 0 := by
  constructor
  · norm_num [NoiseMap.new_with_falloff, NoiseMap.new, gridList, gridCells,
      octaveOffsets, cellValue, cellStep, noise0, rand0, powf0, params1,
      fall1, List.range_succ, falloffDelta, NoiseMap.falloff,
      NoiseMap.get_normalized, NoiseMap.normalize, inverse_lerp,
      runningMin, runningMax, List.getD]
  · norm_num

/-- C7 (amended): `get_normalized` returns a value in [0, 1] for every
in-range query on a RAW (no-falloff) elevation map whose recorded max
exceeds its min; after the falloff transform the result can drop below
0 (see the counterexample), since falloff lowers values while min/max
stay frozen. -/
theorem get_normalized_unit_range_raw (rand : ℕ → ℕ → ℕ)
    (noise : ℚ → ℚ → ℚ) (seed : ℕ) (width height x y : ℕ)
    (p : NoiseParameters) (r : ℚ)
    (hlt : (NoiseMap.new rand noise seed width height p).min <
      (NoiseMap.new rand noise seed width height p).max)
    (hr : (NoiseMap.new rand noise seed width height p).get_normalized
      x y = some r) :
    0 ≤ r ∧ r ≤ 1 := by
  rw [NoiseMap.get_normalized] at hr
  obtain ⟨v, hv, hnorm⟩ := Option.map_eq_some'.mp hr
  have hmem : v ∈ (NoiseMap.new rand noise seed width height p).map :=
    List.get?_mem hv
  have hvmin : (NoiseMap.new rand noise seed width height p).min ≤ v := by
    rw [new_min_eq]
    exact runningMin_le hmem
  have hvmax : v ≤ (NoiseMap.new rand noise seed width height p).max := by
    rw [new_max_eq]
    exact le_runningMax hmem
  have hpos : (0 : ℚ) <
      (NoiseMap.new rand noise seed width height p).max -
        (NoiseMap.new rand noise seed width height p).min :=
    sub_pos.mpr hlt
  rw [NoiseMap.normalize, inverse_lerp] at hnorm
  subst hnorm
  constructor
  · exact div_nonneg (sub_nonneg.mpr hvmin) (le_of_lt hpos)
  · rw [div_le_one hpos]
    exact sub_le_sub_right hvmax _

/-- Witness for the amended C7 on the concrete raw 2×1 field. -/
theorem get_normalized_unit_range_raw_witness :
    (NoiseMap.new rand0 noise0 0 2 1 params1).min <
        (NoiseMap.new rand0 noise0 0 2 1 params1).max ∧
      (NoiseMap.new rand0 noise0 0 2 1 params1).get_normalized 0 0 =
        some 0 ∧
      (0 ≤ (0 : ℚ) ∧ (0 : ℚ) ≤ 1) :=
  ⟨by
      norm_num [NoiseMap.new, gridList, octaveOffsets, cellValue, cellStep,
        noise0, rand0, params1, List.range_succ, runningMin, runningMax],
    by
      norm_num [NoiseMap.new, gridList, octaveOffsets, cellValue, cellStep,
        noise0, rand0, params1, List.range_succ, runningMin, runningMax,
        NoiseMap.get_normalized, NoiseMap.normalize, inverse_lerp],
    get_normalized_unit_range_raw rand0 noise0 0 2 1 0 0 params1 0
      (by
        norm_num [NoiseMap.new, gridList, octaveOffsets, cellValue,
          cellStep, noise0, rand0, params1, List.range_succ, runningMin,
          runningMax])
      (by
        norm_num [NoiseMap.new, gridList, octaveOffsets, cellValue,
          cellStep, noise0, rand0, params1, List.range_succ, runningMin,
          runningMax, NoiseMap.get_normalized, NoiseMap.normalize,
          inverse_lerp])⟩

/-- C8: with octaves = 0 (and a nonempty grid — the spec's data model
declares width and height positive), the builder yields a field whose
cells are all exactly 0, with recorded min = 0 and max = 0. -/
theorem zero_octaves_all_zero (rand : ℕ → ℕ → ℕ) (noise : ℚ → ℚ → ℚ)
    (seed : ℕ) (width height : ℕ) (p : NoiseParameters)
    (hw : 0 < width) (hh : 0 < height) (hoct : p.octaves = 0) :
    (∀ v ∈ (NoiseMap.new rand noise seed width height p).map, v = 0) ∧
      (NoiseMap.new rand noise seed width height p).min = 0 ∧
      (NoiseMap.new rand noise seed width height p).max = 0 := by
  have hmap : (NoiseMap.new rand noise seed width height p).map =
      gridList width height fun _ _ => (0 : ℚ) := by
    rw [new_map_eq, hoct]
    rfl
  have hall : ∀ v ∈ (NoiseMap.new rand noise seed width height p).map,
      v = 0 := by
    rw [hmap]
    intro v hv
    rcases mem_gridList.mp hv with ⟨b, _, a, _, rfl⟩
    rfl
  have hne : (NoiseMap.new rand noise seed width height p).map ≠ [] := by
    intro hnil
    have hlen := new_map_length rand noise seed width height p
    rw [hnil] at hlen
    have hpos : 0 < height * width := Nat.mul_pos hh hw
    simp only [List.length_nil] at hlen
    omega
  refine ⟨hall, ?_, ?_⟩
  · rw [new_min_eq]
    exact hall _ (runningMin_mem hne)
  · rw [new_max_eq]
    exact hall _ (runningMax_mem hne)

/-- Witness for C8 on a concrete 2×2 zero-octave field. -/
theorem zero_octaves_all_zero_witness :
    (0 < 2 ∧ params0.octaves = 0) ∧
      ((NoiseMap.new rand0 noise0 0 2 2 params0).min = 0 ∧
        (NoiseMap.new rand0 noise0 0 2 2 params0).max = 0) :=
  ⟨⟨by decide, by decide⟩,
    (zero_octaves_all_zero rand0 noise0 0 2 2 params0 (by decide)
      (by decide) (by decide)).2⟩

/-- C9 counterexample: `World::new` does not validate its parameters and
has no error path: at the invalid parameters width = 0 and height = 0
combined with a falloff, it silently returns a World whose elevation
field is the empty degenerate map instead of failing with an error. -/
theorem world_new_accepts_degenerate_params :
    degenerateWorldParams.width = 0 ∧ degenerateWorldParams.height = 0 ∧
      degenerateWorldParams.falloff = some fall1 ∧
      (World.new rand0 noise0 powf0 0
        degenerateWorldParams).elevation.map = [] :=
  ⟨rfl, rfl, rfl, rfl⟩

/-- C9 (amended): World construction performs no parameter validation
and cannot fail: for every seed and parameters — including invalid ones
such as zero width/height or zero octaves with a falloff — it returns a
World holding the seed, the parameters unchanged, and the elevation map
built unconditionally by `generate_elevation` (degenerate when the
parameters are invalid, rather than an error). -/
theorem world_new_unvalidated (rand : ℕ → ℕ → ℕ) (noise : ℚ → ℚ → ℚ)
    (powf : ℚ → ℚ → ℚ) (seed : ℕ) (ps : WorldParameters) :
    (World.new rand noise powf seed ps).seed = seed ∧
      (World.new rand noise powf seed ps).parameters = ps ∧
      (World.new rand noise powf seed ps).elevation =
        World.generate_elevation rand noise powf seed ps :=
  ⟨rfl, rfl, rfl⟩

/-- C10: `get` (and `get_normalized`) is a single flat-index lookup at
y*width+x with no per-coordinate bounds check: whenever the flat index
is inside the buffer it returns the value stored at that flat index —
even for x ≥ width, where that slot belongs to a later row — and the
lookup fails (panics, modelled by `none`) exactly when
y*width + x ≥ width*height. -/
theorem get_flat_lookup_no_bounds_check (rand : ℕ → ℕ → ℕ)
    (noise : ℚ → ℚ → ℚ) (seed : ℕ) (width height x y : ℕ)
    (p : NoiseParameters) :
    ((NoiseMap.new rand noise seed width height p).get x y = none ↔
        width * height ≤ y * width + x) ∧
      (y * width + x < width * height →
        ∃ v, (NoiseMap.new rand noise seed width height p).map.get?
            (y * width + x) = some v ∧
          (NoiseMap.new rand noise seed width height p).get x y =
            some v ∧
          (NoiseMap.new rand noise seed width height p).get_normalized
              x y =
            some ((NoiseMap.new rand noise seed width height
              p).normalize v)) := by
  have hlen : (NoiseMap.new rand noise seed width height p).map.length =
      height * width := new_map_length rand noise seed width height p
  have hwidth : (NoiseMap.new rand noise seed width height p).width =
      width := rfl
  constructor
  · rw [NoiseMap.get, hwidth, List.get?_eq_none, hlen, Nat.mul_comm]
  · intro hidx
    obtain ⟨v, hv⟩ : ∃ v,
        (NoiseMap.new rand noise seed width height p).map.get?
          (y * width + x) = some v := by
      cases hget : (NoiseMap.new rand noise seed width height p).map.get?
          (y * width + x) with
      | none =>
          rw [List.get?_eq_none, hlen, Nat.mul_comm] at hget
          omega
      | some v => exact ⟨v, rfl⟩
    refine ⟨v, hv, ?_, ?_⟩
    · rw [NoiseMap.get, hwidth, hv]
    · rw [NoiseMap.get_normalized, hwidth, hv]
      rfl

/-- Witness for C10 on a concrete 2×2 field: the query x = 3 (beyond the
row width 2) with y = 0 has flat index 3 < 4 and succeeds. -/
theorem get_flat_lookup_no_bounds_check_witness :
    (2 ≤ 3 ∧ 0 * 2 + 3 < 2 * 2) ∧
      (∃ v, (NoiseMap.new rand0 noise0 0 2 2 params0).map.get?
          (0 * 2 + 3) = some v ∧
        (NoiseMap.new rand0 noise0 0 2 2 params0).get 3 0 = some v ∧
        (NoiseMap.new rand0 noise0 0 2 2 params0).get_normalized 3 0 =
          some ((NoiseMap.new rand0 noise0 0 2 2 params0).normalize v)) :=
  ⟨⟨by decide, by decide⟩,
    (get_flat_lookup_no_bounds_check rand0 noise0 0 2 2 3 0 params0).2
      (by decide)⟩
